import Mathlib

/-!
Verification of `gtsam::CameraSet<CAMERA>` (src/gtsam/geometry/CameraSet.h)
against its natural-language specification.

The C++ class is a template over a camera type `CAMERA` that provides
  * a static parameter dimension `Dim = traits<CAMERA>::dimension` (≥ 6),
  * a static measurement dimension `ZDim = traits<Measurement>::dimension`,
  * `project(point, Fi*, Ei*, Hi*) → Z`, possibly throwing a cheirality
    exception, with fixed-size derivative blocks
    `Eigen::Matrix<double, ZDim, 6>`, `<ZDim, 3>`, `<ZDim, Dim-6>`,
  * `equals(other, tol) → bool`.

The shallow embedding below is parametric in the camera type `C`, the
measurement type `Z` and the exception payload type `ε`, with the camera
capability's operations collected in a `CameraOps` record (the analogue of
the template parameter's interface).  `double` is modelled by `ℚ`; a
matrix is a list of rows, each row a list of entries, with the fixed Eigen
dimensions expressed by the `matShape` predicate.
-/

set_option autoImplicit false

namespace GtsamCameraSet

/-- A matrix, as a list of rows (entries in `ℚ`, modelling `double`). -/
abbrev Mat : Type := List (List ℚ)

/-- `M` has `m` rows, each of length `n` (the shape `Eigen` fixes statically). -/
def matShape (M : Mat) (m n : Nat) : Prop :=
  M.length = m ∧ ∀ row ∈ M, row.length = n

instance (M : Mat) (m n : Nat) : Decidable (matShape M m n) := by
  unfold matShape; infer_instance

/-- `gtsam::Point3`, a 3D point with `double` coordinates. -/
structure Point3 where
  x : ℚ
  y : ℚ
  z : ℚ
deriving DecidableEq

/-- The failure `std::vector::at` raises on a bad index (`std::out_of_range`). -/
inductive AccessError : Type where
  | outOfRange : AccessError
deriving DecidableEq

/-- `xs.at(i)` of `std::vector`: the element, or the `std::out_of_range` throw. -/
def vecAt {α : Type} (xs : List α) (i : Nat) : Except AccessError α :=
  match xs.get? i with
  | some x => .ok x
  | none => .error .outOfRange

/-- The camera capability: the interface the `CAMERA` template parameter of
`CameraSet` must provide.  `project` returns the measurement together with
the three derivative blocks (`Fi : ZDim×6`, `Ei : ZDim×3`, `Hi : ZDim×(Dim-6)`
in the C++ code); passing a null pointer for a block in C++ merely discards
it, so the embedding always computes all three and the caller selects.
A cheirality failure is an `ε`-valued exception. -/
structure CameraOps (C Z ε : Type) where
  project : C → Point3 → Except ε (Z × Mat × Mat × Mat)
  camEq : C → C → ℚ → Bool
  Dim : Nat
  ZDim : Nat

/-- The camera capability respects the static Eigen dimensions: every
successful projection returns blocks of shape `ZDim×6`, `ZDim×3` and
`ZDim×(Dim-6)` (in C++ this is enforced by the types
`Eigen::Matrix<double, ZDim, 6>` etc.). -/
def CameraOps.WF {C Z ε : Type} (ops : CameraOps C Z ε) : Prop :=
  ∀ c pt r, ops.project c pt = .ok r →
    matShape r.2.1 ops.ZDim 6 ∧ matShape r.2.2.1 ops.ZDim 3 ∧
      matShape r.2.2.2 ops.ZDim (ops.Dim - 6)

/-- `gtsam::CameraSet<CAMERA>`: the single member is
`std::vector<CAMERA> cameras_`. -/
structure CameraSet (C : Type) where
  cameras_ : List C

/-- `CameraSet::add`: `cameras_.push_back(camera)`. -/
def CameraSet.add {C : Type} (s : CameraSet C) (camera : C) : CameraSet C :=
  ⟨s.cameras_ ++ [camera]⟩

/-- `CameraSet::equals` (CameraSet.h, lines 79–87).  The C++ body is

      bool camerasAreEqual = true;
      for (size_t i = 0; i < cameras_.size(); i++) {
        if (cameras_.at(i).equals(p.cameras_.at(i), tol) == false)
          camerasAreEqual = false;
        break;
      }
      return camerasAreEqual;

The `break` statement stands after the `if` statement, not inside it (the
`if` has no braces), so it executes unconditionally: the loop body runs at
most once, for `i = 0`, and is entered only when `cameras_` is nonempty.
`std::vector::at` throws `std::out_of_range` on a bad index, so when this
set is nonempty and `p` is empty the call `p.cameras_.at(0)` throws. -/
def CameraSet.equals {C Z ε : Type} (ops : CameraOps C Z ε)
    (s p : CameraSet C) (tol : ℚ) : Except AccessError Bool :=
  if s.cameras_.length = 0 then
    .ok true
  else do
    let ci ← vecAt s.cameras_ 0
    let pi ← vecAt p.cameras_ 0
    if ops.camEq ci pi tol = false then
      return false
    else
      return true

/-- The projection loop of `CameraSet::project`: call
`cameras_[i].project(point, …)` for `i = 0, 1, …` in order, collecting the
per-camera results; the first camera that throws aborts the loop and the
exception propagates. -/
def projectAll {C Z ε : Type} (ops : CameraOps C Z ε) (pt : Point3) :
    List C → Except ε (List (Z × Mat × Mat × Mat))
  | [] => .ok []
  | c :: rest => do
    let r ← ops.project c pt
    let rs ← projectAll ops pt rest
    return (r :: rs)

/-- `CameraSet::project` (CameraSet.h, lines 93–112).  The three booleans
model whether the optional output arguments `F`, `E`, `H` were supplied by
the caller.  `F` is resized to `(ZDim·n)×6` and filled with the per-camera
blocks `Fi` at row-blocks `ZDim·i` when requested; likewise `E` with width 3.
`H` is resized only under `H && Dim > 6`; when `Dim = 6` every block
assignment into `H` has width `Dim - 6 = 0`, so the caller's matrix is left
untouched — modelled as `none`.  Stacking block `i` at rows
`ZDim·i … ZDim·i+ZDim-1` is the concatenation (join) of the blocks in camera
order.  A cheirality exception from any camera propagates unchanged. -/
def CameraSet.project {C Z ε : Type} (ops : CameraOps C Z ε) (s : CameraSet C)
    (pt : Point3) (wantF wantE wantH : Bool) :
    Except ε (List Z × Option Mat × Option Mat × Option Mat) := do
  let results ← projectAll ops pt s.cameras_
  let F : Option Mat :=
    if wantF = true then some (List.flatten (results.map (fun r => r.2.1))) else none
  let E : Option Mat :=
    if wantE = true then some (List.flatten (results.map (fun r => r.2.2.1))) else none
  let H : Option Mat :=
    if wantH = true ∧ 6 < ops.Dim then
      some (List.flatten (results.map (fun r => r.2.2.2))) else none
  return (results.map (fun r => r.1), F, E, H)

/-- `CameraSet::project` with the object's member state threaded explicitly:
the method is `const` and its body only reads `cameras_` (via `get`), never
assigns to it, so the member state it hands back is the state it read. -/
def CameraSet.projectBody {C Z ε : Type} (ops : CameraOps C Z ε) (pt : Point3)
    (wantF wantE wantH : Bool) :
    StateM (List C) (Except ε (List Z × Option Mat × Option Mat × Option Mat)) := do
  let cams ← get
  pure (CameraSet.project ops ⟨cams⟩ pt wantF wantE wantH)

/-- Row-block `i` of a stacked matrix: the `z` rows starting at row `z·i`
(the slice `M.block<ZDim, cols>(ZDim*i, 0)` reads in the C++ code). -/
def rowBlock (M : Mat) (z i : Nat) : Mat :=
  (M.drop (z * i)).take z

/-- Closeness with tolerance on `ℚ`: `|a − b| ≤ tol`, written on the integer
numerators and denominators (denominators are positive) so that it evaluates
by kernel reduction. -/
def ratCloseTo (a b tol : ℚ) : Bool :=
  decide ((((a.num * (b.den : ℤ) - b.num * (a.den : ℤ)).natAbs : ℤ) *
      (tol.den : ℤ)) ≤ tol.num * ((a.den : ℤ) * (b.den : ℤ)))

/-- A concrete camera capability used to exercise the theorems: a camera is a
rational id `c`; projection fails (cheirality) exactly when `c < 0`, the
exception payload being `c` itself; otherwise the measurement is the point's
`x`-coordinate and the derivative blocks are `2×6`, `2×3` and `2×2` matrices
whose entries mention `c`, so distinct cameras have distinct blocks.
`Dim = 8`, `ZDim = 2`; camera equality is `|a − b| ≤ tol` via `ratCloseTo`. -/
def testOps : CameraOps ℚ ℚ ℚ where
  project := fun c pt =>
    if c < 0 then .error c
    else .ok (pt.x,
      [[c, 0, 0, 0, 0, 0], [0, c, 0, 0, 0, 0]],
      [[c, 1, 0], [0, c, 1]],
      [[c, 1], [1, c]])
  camEq := fun a b tol => ratCloseTo a b tol
  Dim := 8
  ZDim := 2

theorem testOps_WF : testOps.WF := by
  intro c pt r h
  by_cases hc : c < 0
  · simp [testOps, hc] at h
  · simp [testOps, hc] at h
    subst h
    refine ⟨⟨rfl, ?_⟩, ⟨rfl, ?_⟩, ⟨rfl, ?_⟩⟩ <;>
      · intro row hrow
        simp [testOps] at hrow ⊢
        rcases hrow with h1 | h1 <;> subst h1 <;> rfl

/-- Projecting a list of cameras succeeds exactly when every camera's
projection succeeds, and then the result list pairs up with the camera list
index by index. -/
theorem projectAll_ok {C Z ε : Type} (ops : CameraOps C Z ε) (pt : Point3) :
    ∀ (l : List C) (rs : List (Z × Mat × Mat × Mat)),
      projectAll ops pt l = .ok rs →
      rs.length = l.length ∧
        ∀ i (h1 : i < l.length) (h2 : i < rs.length),
          ops.project (l.get ⟨i, h1⟩) pt = .ok (rs.get ⟨i, h2⟩) := by
  intro l
  induction l with
  | nil =>
    intro rs h
    simp only [projectAll] at h
    cases h
    exact ⟨rfl, fun i h1 _ => absurd h1 (Nat.not_lt_zero i)⟩
  | cons c cs ih =>
    intro rs h
    simp only [projectAll] at h
    cases hr : ops.project c pt with
    | error e => rw [hr] at h; simp [Bind.bind, Except.bind] at h
    | ok r =>
      rw [hr] at h
      cases hrest : projectAll ops pt cs with
      | error e => rw [hrest] at h; simp [Bind.bind, Except.bind] at h
      | ok rs' =>
        rw [hrest] at h
        simp only [Bind.bind, Except.bind, pure, Except.pure, Except.ok.injEq] at h
        subst h
        obtain ⟨hlen, hget⟩ := ih rs' hrest
        refine ⟨by simp [hlen], ?_⟩
        intro i h1 h2
        cases i with
        | zero => simpa using hr
        | succ j =>
          have h1' : j < cs.length := by simpa using h1
          have h2' : j < rs'.length := by simpa using h2
          simpa using hget j h1' h2'

/-- If one camera throws and all earlier cameras succeed, the loop aborts
with exactly that exception. -/
theorem projectAll_error {C Z ε : Type} (ops : CameraOps C Z ε) (pt : Point3) :
    ∀ (l : List C) (i : Nat) (hi : i < l.length) (e : ε),
      (∀ j (hj : j < i), ∃ r, ops.project (l.get ⟨j, Nat.lt_trans hj hi⟩) pt = .ok r) →
      ops.project (l.get ⟨i, hi⟩) pt = .error e →
      projectAll ops pt l = .error e := by
  intro l
  induction l with
  | nil => intro i hi; exact absurd hi (Nat.not_lt_zero i)
  | cons c cs ih =>
    intro i hi e hok herr
    cases i with
    | zero =>
      simp only [List.get] at herr
      simp only [projectAll, herr, Bind.bind, Except.bind]
    | succ k =>
      have h0 : (0 : Nat) < k + 1 := Nat.succ_pos k
      obtain ⟨r0, hr0⟩ := hok 0 h0
      simp only [List.get] at hr0
      have hk : k < cs.length := by simpa using hi
      have hcs : projectAll ops pt cs = .error e := by
        refine ih k hk e ?_ (by simpa using herr)
        intro j hj
        obtain ⟨r, hr⟩ := hok (j + 1) (Nat.succ_lt_succ hj)
        exact ⟨r, by simpa using hr⟩
      simp only [projectAll, hr0, hcs, Bind.bind, Except.bind]

/-- Stacking `n` blocks of shape `z × w` gives a `(z·n) × w` matrix. -/
theorem flatten_matShape (z w : Nat) :
    ∀ (blocks : List Mat), (∀ b ∈ blocks, matShape b z w) →
      matShape (List.flatten blocks) (z * blocks.length) w := by
  intro blocks
  induction blocks with
  | nil => intro _; simp [matShape]
  | cons b bs ih =>
    intro h
    have hb := h b (List.mem_cons_self b bs)
    have hbs := ih (fun b' hb' => h b' (List.mem_cons_of_mem b hb'))
    constructor
    · simp only [List.flatten_cons, List.length_append, hb.1, hbs.1,
        List.length_cons]
      ring
    · intro row hrow
      rw [List.flatten_cons, List.mem_append] at hrow
      rcases hrow with hr | hr
      · exact hb.2 row hr
      · exact hbs.2 row hr

/-- Row-block `i` of the stacked matrix is exactly block `i`, provided every
block has `z` rows. -/
theorem rowBlock_flatten (z : Nat) :
    ∀ (blocks : List Mat) (i : Nat) (hi : i < blocks.length),
      (∀ b ∈ blocks, b.length = z) →
      rowBlock (List.flatten blocks) z i = blocks.get ⟨i, hi⟩ := by
  intro blocks
  induction blocks with
  | nil => intro i hi; exact absurd hi (Nat.not_lt_zero i)
  | cons b bs ih =>
    intro i hi h
    have hb : b.length = z := h b (List.mem_cons_self b bs)
    cases i with
    | zero =>
      simp only [rowBlock, List.flatten_cons, Nat.mul_zero, List.drop_zero,
        List.get]
      rw [← hb, List.take_left]
    | succ j =>
      have hj : j < bs.length := by simpa using hi
      have hstep : z * (j + 1) = b.length + z * j := by rw [hb]; ring
      simp only [rowBlock, List.flatten_cons, List.get]
      rw [hstep, ← List.drop_drop, List.drop_left]
      exact ih j hj (fun b' hb' => h b' (List.mem_cons_of_mem b hb'))

/-- Characterisation of a successful `project` call in terms of the
projection loop. -/
theorem project_ok {C Z ε : Type} (ops : CameraOps C Z ε) (s : CameraSet C)
    (pt : Point3) (wF wE wH : Bool)
    (out : List Z × Option Mat × Option Mat × Option Mat)
    (h : s.project ops pt wF wE wH = .ok out) :
    ∃ rs, projectAll ops pt s.cameras_ = .ok rs ∧
      out = (rs.map (fun r => r.1),
        if wF = true then some (List.flatten (rs.map (fun r => r.2.1)))
          else none,
        if wE = true then some (List.flatten (rs.map (fun r => r.2.2.1)))
          else none,
        if wH = true ∧ 6 < ops.Dim then
          some (List.flatten (rs.map (fun r => r.2.2.2))) else none) := by
  unfold CameraSet.project at h
  cases hrs : projectAll ops pt s.cameras_ with
  | error e => rw [hrs] at h; simp [Bind.bind, Except.bind] at h
  | ok rs =>
    rw [hrs] at h
    simp only [Bind.bind, Except.bind, pure, Except.pure, Except.ok.injEq] at h
    exact ⟨rs, rfl, h.symm⟩

/-- Every element of a successful projection-loop result is the result of a
successful projection of some camera in the set. -/
theorem projectAll_mem {C Z ε : Type} (ops : CameraOps C Z ε) (pt : Point3)
    (l : List C) (rs : List (Z × Mat × Mat × Mat))
    (h : projectAll ops pt l = .ok rs) :
    ∀ r ∈ rs, ∃ c, ops.project c pt = .ok r := by
  obtain ⟨hlen, hget⟩ := projectAll_ok ops pt l rs h
  intro r hr
  obtain ⟨⟨i, h2⟩, rfl⟩ := List.mem_iff_get.mp hr
  exact ⟨l.get ⟨i, hlen ▸ h2⟩, hget i (hlen ▸ h2) h2⟩

/-- Claim C4: for every CameraSet with `N ≥ 0` cameras and every point whose
projection succeeds for all cameras, the measurement sequence returned by
`project` has length exactly `N`, the number of cameras in the set. -/
theorem project_measurements_length {C Z ε : Type} (ops : CameraOps C Z ε)
    (s : CameraSet C) (pt : Point3) (wF wE wH : Bool)
    (z : List Z) (F E H : Option Mat)
    (h : s.project ops pt wF wE wH = .ok (z, F, E, H)) :
    z.length = s.cameras_.length := by
  obtain ⟨rs, hrs, hout⟩ := project_ok ops s pt wF wE wH (z, F, E, H) h
  simp only [Prod.mk.injEq] at hout
  obtain ⟨hz, -, -, -⟩ := hout
  obtain ⟨hlen, -⟩ := projectAll_ok ops pt s.cameras_ rs hrs
  rw [hz, List.length_map, hlen]

theorem project_measurements_length_witness :
    ([(5 : ℚ), 5] : List ℚ).length =
      (CameraSet.mk [(1 : ℚ), 2]).cameras_.length :=
  project_measurements_length testOps ⟨[1, 2]⟩ ⟨5, 2, 3⟩ true true true
    [5, 5]
    (some [[1, 0, 0, 0, 0, 0], [0, 1, 0, 0, 0, 0],
           [2, 0, 0, 0, 0, 0], [0, 2, 0, 0, 0, 0]])
    (some [[1, 1, 0], [0, 1, 1], [2, 1, 0], [0, 2, 1]])
    (some [[1, 1], [1, 1], [2, 1], [1, 2]])
    rfl

/-- Claim C5: for every CameraSet and every point for which no camera's
projection fails, the measurement values returned by `project` are identical
whether all derivative blocks are requested or none are. -/
theorem project_measurements_flag_independent {C Z ε : Type}
    (ops : CameraOps C Z ε) (s : CameraSet C) (pt : Point3)
    (z1 z2 : List Z) (F1 E1 H1 F2 E2 H2 : Option Mat)
    (h1 : s.project ops pt false false false = .ok (z1, F1, E1, H1))
    (h2 : s.project ops pt true true true = .ok (z2, F2, E2, H2)) :
    z1 = z2 := by
  obtain ⟨rs1, hrs1, hout1⟩ :=
    project_ok ops s pt false false false (z1, F1, E1, H1) h1
  obtain ⟨rs2, hrs2, hout2⟩ :=
    project_ok ops s pt true true true (z2, F2, E2, H2) h2
  simp only [Prod.mk.injEq] at hout1 hout2
  have hrs : rs1 = rs2 := Except.ok.inj (hrs1.symm.trans hrs2)
  rw [hout1.1, hout2.1, hrs]

theorem project_measurements_flag_independent_witness :
    ([(5 : ℚ), 5] : List ℚ) = [5, 5] :=
  project_measurements_flag_independent testOps ⟨[1, 2]⟩ ⟨5, 2, 3⟩
    [5, 5] [5, 5] none none none
    (some [[1, 0, 0, 0, 0, 0], [0, 1, 0, 0, 0, 0],
           [2, 0, 0, 0, 0, 0], [0, 2, 0, 0, 0, 0]])
    (some [[1, 1, 0], [0, 1, 1], [2, 1, 0], [0, 2, 1]])
    (some [[1, 1], [1, 1], [2, 1], [1, 2]])
    rfl rfl

/-- Claim C6: if any camera's projection fails with the cheirality condition
(all earlier cameras succeeding), `project` raises that same error to the
caller unchanged: it does not catch or suppress it, adds no context, and
performs no partial recovery — the result is exactly the camera's error. -/
theorem project_propagates_cheirality {C Z ε : Type} (ops : CameraOps C Z ε)
    (s : CameraSet C) (pt : Point3) (i : Nat) (hi : i < s.cameras_.length)
    (e : ε)
    (hok : ∀ j (hj : j < i),
      ∃ r, ops.project (s.cameras_.get ⟨j, Nat.lt_trans hj hi⟩) pt = .ok r)
    (herr : ops.project (s.cameras_.get ⟨i, hi⟩) pt = .error e)
    (wF wE wH : Bool) :
    s.project ops pt wF wE wH = .error e := by
  have hall := projectAll_error ops pt s.cameras_ i hi e hok herr
  unfold CameraSet.project
  rw [hall]
  simp [Bind.bind, Except.bind]

theorem project_propagates_cheirality_witness :
    (CameraSet.mk [(1 : ℚ), -1, 2]).project testOps ⟨5, 2, 3⟩ true true true =
      .error (-1) := by
  refine project_propagates_cheirality testOps ⟨[1, -1, 2]⟩ ⟨5, 2, 3⟩ 1
    (by decide) (-1) ?_ rfl true true true
  intro j hj
  have hj0 : j = 0 := by omega
  subst hj0
  exact ⟨_, rfl⟩

/-- Claim C7: `equals(S, S, tol)` returns true for every set `S` and every
tolerance `tol ≥ 0`, the empty set included, given that the camera
capability's own equality-with-tolerance is reflexive at that tolerance. -/
theorem equals_self {C Z ε : Type} (ops : CameraOps C Z ε) (s : CameraSet C)
    (tol : ℚ) (htol : 0 ≤ tol)
    (hrefl : ∀ c ∈ s.cameras_, ops.camEq c c tol = true) :
    s.equals ops s tol = .ok true := by
  obtain ⟨cams⟩ := s
  cases cams with
  | nil => rfl
  | cons c cs =>
    have hc : ops.camEq c c tol = true := hrefl c (List.mem_cons_self c cs)
    simp [CameraSet.equals, vecAt, hc, Bind.bind, Except.bind, pure,
      Except.pure]

theorem equals_self_witness :
    (CameraSet.mk [(1 : ℚ), 2]).equals testOps (CameraSet.mk [(1 : ℚ), 2]) 0 =
      .ok true :=
  equals_self testOps ⟨[1, 2]⟩ 0 (by decide) (by decide)

/-- Claim C8: `project` mutates no member state: with the member `cameras_`
threaded explicitly through the body, the state handed back is exactly the
state passed in (the camera sequence keeps its length, contents and order),
and the produced value is the ordinary result of `project`. -/
theorem projectBody_preserves_cameras {C Z ε : Type} (ops : CameraOps C Z ε)
    (pt : Point3) (wantF wantE wantH : Bool) (cams : List C) :
    (CameraSet.projectBody ops pt wantF wantE wantH).run cams =
      (CameraSet.project ops ⟨cams⟩ pt wantF wantE wantH, cams) := rfl

/-- Claim C10: `equals` called on an empty CameraSet returns true whatever
the other set and the tolerance are: the comparison loop is bounded by the
receiver's own size, so an empty receiver compares no elements. -/
theorem equals_empty_receiver {C Z ε : Type} (ops : CameraOps C Z ε)
    (p : CameraSet C) (tol : ℚ) :
    (CameraSet.mk ([] : List C)).equals ops p tol = .ok true := rfl

/-- Claim C9: on two sets of different cardinality `equals` performs no
cardinality check and reports no shape-mismatch error: an empty receiver
yields `true` without touching the other set, the only observable failure is
the out-of-bounds access `p.cameras_.at(0)` (receiver nonempty, other set
empty), and in every other case a plain boolean comes back. -/
theorem equals_mismatched_sizes {C Z ε : Type} (ops : CameraOps C Z ε)
    (s p : CameraSet C) (tol : ℚ)
    (hlen : s.cameras_.length ≠ p.cameras_.length) :
    (s.cameras_ = [] → s.equals ops p tol = .ok true) ∧
    (s.cameras_ ≠ [] → p.cameras_ = [] →
      s.equals ops p tol = .error .outOfRange) ∧
    (s.cameras_ ≠ [] → p.cameras_ ≠ [] →
      ∃ b, s.equals ops p tol = .ok b) := by
  obtain ⟨cams⟩ := s
  obtain ⟨pcams⟩ := p
  refine ⟨?_, ?_, ?_⟩
  · intro h
    simp only at h
    subst h
    rfl
  · intro hs hp
    simp only at hs hp
    subst hp
    cases cams with
    | nil => exact absurd rfl hs
    | cons c cs =>
      simp [CameraSet.equals, vecAt, Bind.bind, Except.bind]
  · intro hs hp
    simp only at hs hp
    cases cams with
    | nil => exact absurd rfl hs
    | cons c cs =>
      cases pcams with
      | nil => exact absurd rfl hp
      | cons d ds =>
        by_cases hcd : ops.camEq c d tol = false
        · exact ⟨false, by
            simp [CameraSet.equals, vecAt, hcd, Bind.bind, Except.bind, pure,
              Except.pure]⟩
        · exact ⟨true, by
            simp [CameraSet.equals, vecAt, hcd, Bind.bind, Except.bind, pure,
              Except.pure]⟩

theorem equals_mismatched_sizes_witness :
    ((CameraSet.mk [(1 : ℚ)]).cameras_ = [] →
      (CameraSet.mk [(1 : ℚ)]).equals testOps
        (CameraSet.mk ([] : List ℚ)) 0 = .ok true) ∧
    ((CameraSet.mk [(1 : ℚ)]).cameras_ ≠ [] →
      (CameraSet.mk ([] : List ℚ)).cameras_ = [] →
      (CameraSet.mk [(1 : ℚ)]).equals testOps
        (CameraSet.mk ([] : List ℚ)) 0 = .error .outOfRange) ∧
    ((CameraSet.mk [(1 : ℚ)]).cameras_ ≠ [] →
      (CameraSet.mk ([] : List ℚ)).cameras_ ≠ [] →
      ∃ b, (CameraSet.mk [(1 : ℚ)]).equals testOps
        (CameraSet.mk ([] : List ℚ)) 0 = .ok b) :=
  equals_mismatched_sizes testOps ⟨[1]⟩ ⟨[]⟩ 0 (by decide)

/-- Claim C1: the spec asks `equals` to compare element-wise in insertion
order, stopping early only on an actual mismatch; the code's `break` is
unconditional (it stands after the `if`, outside its body), so only index 0
is ever compared.  At the concrete input below the two sets agree at index 0
and differ at index 1 under the camera capability's equality-with-tolerance,
yet `equals` returns true — the code contradicts the claimed behaviour. -/
theorem equals_unconditional_break_bug :
    (CameraSet.mk [(1 : ℚ), 2]).equals testOps
        (CameraSet.mk [(1 : ℚ), 3]) 0 = .ok true ∧
      testOps.camEq 2 3 0 = false :=
  ⟨rfl, by decide⟩

/-- Claim C2: for every CameraSet, every point for which no camera's
projection fails, and each requested derivative matrix (`F`, `E` or `H`),
row-block `i` (the `ZDim` rows starting at row `ZDim·i`) of the returned
stacked matrix equals exactly the derivative block computed by camera `i`'s
own projection capability on the same point, for every index `i` in
insertion order. -/
theorem project_rowBlocks {C Z ε : Type} (ops : CameraOps C Z ε)
    (s : CameraSet C) (pt : Point3) (wF wE wH : Bool)
    (z : List Z) (F E H : Option Mat)
    (hWF : ops.WF)
    (h : s.project ops pt wF wE wH = .ok (z, F, E, H))
    (i : Nat) (hi : i < s.cameras_.length)
    (ri : Z × Mat × Mat × Mat)
    (hri : ops.project (s.cameras_.get ⟨i, hi⟩) pt = .ok ri) :
    (∀ Fm, F = some Fm → rowBlock Fm ops.ZDim i = ri.2.1) ∧
    (∀ Em, E = some Em → rowBlock Em ops.ZDim i = ri.2.2.1) ∧
    (∀ Hm, H = some Hm → rowBlock Hm ops.ZDim i = ri.2.2.2) := by
  obtain ⟨rs, hrs, hout⟩ := project_ok ops s pt wF wE wH (z, F, E, H) h
  simp only [Prod.mk.injEq] at hout
  obtain ⟨-, hF, hE, hH⟩ := hout
  obtain ⟨hlen, hget⟩ := projectAll_ok ops pt s.cameras_ rs hrs
  have hi' : i < rs.length := hlen ▸ hi
  have hri' : ri = rs.get ⟨i, hi'⟩ :=
    Except.ok.inj ((hri.symm.trans (hget i hi hi')))
  have hmem := projectAll_mem ops pt s.cameras_ rs hrs
  refine ⟨?_, ?_, ?_⟩
  · intro Fm hFm
    rw [hFm] at hF
    cases wF with
    | false => simp at hF
    | true =>
      simp only [if_pos] at hF
      have hFm' : Fm = List.flatten (rs.map (fun r => r.2.1)) :=
        Option.some.inj hF
      have hrows : ∀ b ∈ rs.map (fun r => r.2.1), b.length = ops.ZDim := by
        intro b hb
        obtain ⟨r, hrmem, rfl⟩ := List.mem_map.mp hb
        obtain ⟨c, hc⟩ := hmem r hrmem
        exact (hWF c pt r hc).1.1
      have hil : i < (rs.map (fun r => r.2.1)).length := by
        rw [List.length_map]; exact hi'
      rw [hFm', rowBlock_flatten ops.ZDim _ i hil hrows, List.get_map, hri']
  · intro Em hEm
    rw [hEm] at hE
    cases wE with
    | false => simp at hE
    | true =>
      simp only [if_pos] at hE
      have hEm' : Em = List.flatten (rs.map (fun r => r.2.2.1)) :=
        Option.some.inj hE
      have hrows : ∀ b ∈ rs.map (fun r => r.2.2.1), b.length = ops.ZDim := by
        intro b hb
        obtain ⟨r, hrmem, rfl⟩ := List.mem_map.mp hb
        obtain ⟨c, hc⟩ := hmem r hrmem
        exact (hWF c pt r hc).2.1.1
      have hil : i < (rs.map (fun r => r.2.2.1)).length := by
        rw [List.length_map]; exact hi'
      rw [hEm', rowBlock_flatten ops.ZDim _ i hil hrows, List.get_map, hri']
  · intro Hm hHm
    rw [hHm] at hH
    by_cases hcond : wH = true ∧ 6 < ops.Dim
    · rw [if_pos hcond] at hH
      have hHm' : Hm = List.flatten (rs.map (fun r => r.2.2.2)) :=
        Option.some.inj hH
      have hrows : ∀ b ∈ rs.map (fun r => r.2.2.2), b.length = ops.ZDim := by
        intro b hb
        obtain ⟨r, hrmem, rfl⟩ := List.mem_map.mp hb
        obtain ⟨c, hc⟩ := hmem r hrmem
        exact (hWF c pt r hc).2.2.1
      have hil : i < (rs.map (fun r => r.2.2.2)).length := by
        rw [List.length_map]; exact hi'
      rw [hHm', rowBlock_flatten ops.ZDim _ i hil hrows, List.get_map, hri']
    · rw [if_neg hcond] at hH
      exact absurd hH (by simp)

theorem project_rowBlocks_witness :
    (rowBlock [[1, 0, 0, 0, 0, 0], [0, 1, 0, 0, 0, 0],
        [2, 0, 0, 0, 0, 0], [0, 2, 0, 0, 0, 0]] testOps.ZDim 1 =
      [[2, 0, 0, 0, 0, 0], [0, 2, 0, 0, 0, 0]]) ∧
    (rowBlock [[1, 1, 0], [0, 1, 1], [2, 1, 0], [0, 2, 1]] testOps.ZDim 1 =
      [[2, 1, 0], [0, 2, 1]]) ∧
    (rowBlock [[1, 1], [1, 1], [2, 1], [1, 2]] testOps.ZDim 1 =
      [[2, 1], [1, 2]]) := by
  have h := project_rowBlocks testOps ⟨[1, 2]⟩ ⟨5, 2, 3⟩ true true true
    [5, 5]
    (some [[1, 0, 0, 0, 0, 0], [0, 1, 0, 0, 0, 0],
           [2, 0, 0, 0, 0, 0], [0, 2, 0, 0, 0, 0]])
    (some [[1, 1, 0], [0, 1, 1], [2, 1, 0], [0, 2, 1]])
    (some [[1, 1], [1, 1], [2, 1], [1, 2]])
    testOps_WF rfl 1 (by decide)
    (5, [[2, 0, 0, 0, 0, 0], [0, 2, 0, 0, 0, 0]],
      [[2, 1, 0], [0, 2, 1]], [[2, 1], [1, 2]])
    rfl
  exact ⟨h.1 _ rfl, h.2.1 _ rfl, h.2.2 _ rfl⟩

/-- Claim C3: for every CameraSet with `N` cameras and every non-failing
point, the requested `F` has shape `(ZDim·N) × 6`, the requested `E` has
shape `(ZDim·N) × 3`, the requested `H` has shape `(ZDim·N) × (Dim−6)` when
`Dim > 6`, and when `Dim = 6` no `H` output is produced even if requested. -/
theorem project_shapes {C Z ε : Type} (ops : CameraOps C Z ε)
    (s : CameraSet C) (pt : Point3) (wF wE wH : Bool)
    (z : List Z) (F E H : Option Mat)
    (hWF : ops.WF)
    (h : s.project ops pt wF wE wH = .ok (z, F, E, H)) :
    (wF = true → ∃ Fm, F = some Fm ∧
      matShape Fm (ops.ZDim * s.cameras_.length) 6) ∧
    (wE = true → ∃ Em, E = some Em ∧
      matShape Em (ops.ZDim * s.cameras_.length) 3) ∧
    (wH = true → 6 < ops.Dim → ∃ Hm, H = some Hm ∧
      matShape Hm (ops.ZDim * s.cameras_.length) (ops.Dim - 6)) ∧
    (ops.Dim = 6 → H = none) := by
  obtain ⟨rs, hrs, hout⟩ := project_ok ops s pt wF wE wH (z, F, E, H) h
  simp only [Prod.mk.injEq] at hout
  obtain ⟨-, hF, hE, hH⟩ := hout
  obtain ⟨hlen, -⟩ := projectAll_ok ops pt s.cameras_ rs hrs
  have hmem := projectAll_mem ops pt s.cameras_ rs hrs
  refine ⟨?_, ?_, ?_, ?_⟩
  · intro hwF
    subst hwF
    refine ⟨List.flatten (rs.map (fun r => r.2.1)), by simpa using hF, ?_⟩
    have hsh := flatten_matShape ops.ZDim 6 (rs.map (fun r => r.2.1)) ?_
    · rw [List.length_map, hlen] at hsh
      exact hsh
    · intro b hb
      obtain ⟨r, hrmem, rfl⟩ := List.mem_map.mp hb
      obtain ⟨c, hc⟩ := hmem r hrmem
      exact (hWF c pt r hc).1
  · intro hwE
    subst hwE
    refine ⟨List.flatten (rs.map (fun r => r.2.2.1)), by simpa using hE, ?_⟩
    have hsh := flatten_matShape ops.ZDim 3 (rs.map (fun r => r.2.2.1)) ?_
    · rw [List.length_map, hlen] at hsh
      exact hsh
    · intro b hb
      obtain ⟨r, hrmem, rfl⟩ := List.mem_map.mp hb
      obtain ⟨c, hc⟩ := hmem r hrmem
      exact (hWF c pt r hc).2.1
  · intro hwH hDim
    subst hwH
    refine ⟨List.flatten (rs.map (fun r => r.2.2.2)), ?_, ?_⟩
    · rw [hH, if_pos ⟨rfl, hDim⟩]
    · have hsh := flatten_matShape ops.ZDim (ops.Dim - 6)
        (rs.map (fun r => r.2.2.2)) ?_
      · rw [List.length_map, hlen] at hsh
        exact hsh
      · intro b hb
        obtain ⟨r, hrmem, rfl⟩ := List.mem_map.mp hb
        obtain ⟨c, hc⟩ := hmem r hrmem
        exact (hWF c pt r hc).2.2
  · intro hDim
    rw [hH, if_neg]
    intro hcond
    rw [hDim] at hcond
    exact absurd hcond.2 (by decide)

theorem project_shapes_witness :
    ((true = true → ∃ Fm,
        (some [[(1 : ℚ), 0, 0, 0, 0, 0], [0, 1, 0, 0, 0, 0],
          [2, 0, 0, 0, 0, 0], [0, 2, 0, 0, 0, 0]] : Option Mat) = some Fm ∧
        matShape Fm (testOps.ZDim * (CameraSet.mk [(1 : ℚ), 2]).cameras_.length) 6) ∧
     (true = true → ∃ Em,
        (some [[(1 : ℚ), 1, 0], [0, 1, 1], [2, 1, 0], [0, 2, 1]] : Option Mat) =
          some Em ∧
        matShape Em (testOps.ZDim * (CameraSet.mk [(1 : ℚ), 2]).cameras_.length) 3) ∧
     (true = true → 6 < testOps.Dim → ∃ Hm,
        (some [[(1 : ℚ), 1], [1, 1], [2, 1], [1, 2]] : Option Mat) = some Hm ∧
        matShape Hm (testOps.ZDim * (CameraSet.mk [(1 : ℚ), 2]).cameras_.length)
          (testOps.Dim - 6)) ∧
     (testOps.Dim = 6 →
        (some [[(1 : ℚ), 1], [1, 1], [2, 1], [1, 2]] : Option Mat) = none)) :=
  project_shapes testOps ⟨[1, 2]⟩ ⟨5, 2, 3⟩ true true true
    [5, 5]
    (some [[1, 0, 0, 0, 0, 0], [0, 1, 0, 0, 0, 0],
           [2, 0, 0, 0, 0, 0], [0, 2, 0, 0, 0, 0]])
    (some [[1, 1, 0], [0, 1, 1], [2, 1, 0], [0, 2, 1]])
    (some [[1, 1], [1, 1], [2, 1], [1, 2]])
    testOps_WF rfl

end GtsamCameraSet
